import Mathlib

/-!
A shallow embedding of the tree-mutation and undo/redo core of the Taskception
todo application (`src/hooks/useTodos.ts`, operation-log version, together with
the `Todo` / `TodoOperation` types from `src/types/todo.ts`).

Modelling choices:
* `Date` values are modelled as natural numbers (`now` is passed explicitly to
  every mutation, mirroring each `new Date()` call site); `uuidv4()` is
  modelled as an explicit `newId` argument.
* JavaScript arrays of todos are modelled by the mutual inductive `TodoList`
  (a rose tree cannot nest Lean `List` while keeping structural recursion).
* The React state triple (`todos`, `undoStack`, `redoStack`) is the record
  `TodoState`; every public mutation is a pure function on it.
* `JSON.parse(JSON.stringify(...))` deep copies are identities under value
  semantics and are dropped.
-/

/-- The scalar fields of a `Todo` (everything except `children`). -/
structure TodoData where
  id : String
  title : String
  completed : Bool
  expanded : Bool
  endDate : Option Nat
  createdAt : Nat
  updatedAt : Nat
deriving DecidableEq

mutual

/-- A todo node: scalar data plus an ordered list of children. -/
inductive Todo where
  | mk (data : TodoData) (children : TodoList)
deriving DecidableEq

/-- An ordered list of todo nodes (one level of the forest). -/
inductive TodoList where
  | nil
  | cons (t : Todo) (ts : TodoList)
deriving DecidableEq

end

def Todo.data : Todo → TodoData
  | .mk d _ => d

def Todo.children : Todo → TodoList
  | .mk _ c => c

def Todo.id (t : Todo) : String := t.data.id

def Todo.title (t : Todo) : String := t.data.title

def Todo.completed (t : Todo) : Bool := t.data.completed

def Todo.expanded (t : Todo) : Bool := t.data.expanded

def Todo.endDate (t : Todo) : Option Nat := t.data.endDate

def TodoList.append : TodoList → TodoList → TodoList
  | .nil, ys => ys
  | .cons x xs, ys => .cons x (TodoList.append xs ys)

instance : Append TodoList := ⟨TodoList.append⟩

def TodoList.filter (p : Todo → Bool) : TodoList → TodoList
  | .nil => .nil
  | .cons t ts => if p t then .cons t (TodoList.filter p ts) else TodoList.filter p ts

/-- `Array.prototype.slice`-style take, used to model `splice` insertions. -/
def TodoList.take : Nat → TodoList → TodoList
  | 0, _ => .nil
  | _, .nil => .nil
  | n + 1, .cons t ts => .cons t (TodoList.take n ts)

def TodoList.drop : Nat → TodoList → TodoList
  | 0, ts => ts
  | _, .nil => .nil
  | n + 1, .cons _ ts => TodoList.drop n ts

def TodoList.isEmpty : TodoList → Bool
  | .nil => true
  | .cons _ _ => false

def TodoList.length : TodoList → Nat
  | .nil => 0
  | .cons _ ts => TodoList.length ts + 1

/-- Drop positions of `moveTodo` (`'before' | 'after' | 'inside'`). -/
inductive Position where
  | before
  | after
  | inside
deriving DecidableEq

/-- Result record of `findTodoAndParentById`
(`{ todo, parent, index, parentId }`, with `-1` as the not-found index). -/
structure FindContext where
  todo : Option Todo
  parent : Option Todo
  index : Int
  parentId : Option String
deriving DecidableEq

/-- The tagged union `TodoOperation` from `src/types/todo.ts`. -/
inductive TodoOperation where
  | add (todo : Todo) (parentId : Option String) (timestamp : Nat)
  | delete (todo : Todo) (parentId : Option String) (previousIndex : Int) (timestamp : Nat)
  | update (id : String) (oldTodo newTodo : Todo) (timestamp : Nat)
  | move (draggedId : String) (oldTargetId : Option String) (oldPosition : Position)
      (newTargetId : Option String) (newPosition : Position) (timestamp : Nat)
  | toggleCompletion (id : String) (oldCompleted : Bool) (oldEndDate : Option Nat) (timestamp : Nat)
  | toggleExpansion (id : String) (oldExpanded : Bool) (timestamp : Nat)
deriving DecidableEq

/-- The `useTodos` hook state: current tree plus the two operation stacks. -/
structure TodoState where
  todos : TodoList
  undoStack : List TodoOperation
  redoStack : List TodoOperation
deriving DecidableEq

def MAX_HISTORY_SIZE : Nat := 50

mutual

/-- One iteration step of the `for (const todo of todos)` loop of
`findTodoById`: check the node itself, then its children. -/
def findInTodo : Todo → String → Option Todo
  | .mk d c, id => if d.id = id then some (.mk d c) else findTodoById c id

/-- `findTodoById(todos, id)`: depth-first search for a node by id. -/
def findTodoById : TodoList → String → Option Todo
  | .nil, _ => none
  | .cons t ts, id =>
    match findInTodo t id with
    | some found => some found
    | none => findTodoById ts id

end

/-- The indexed loop of `findTodoAndParentById`; `i` is the position of the
head of the list within its parent's children. -/
def findTAP : TodoList → String → Option String → TodoList → Nat → FindContext
  | .nil, _, _, _, _ => ⟨none, none, -1, none⟩
  | .cons (.mk d c) ts, id, parentId, root, i =>
    if d.id = id then
      let parent := match parentId with
        | some pid => findTodoById root pid
        | none => none
      ⟨some (.mk d c), parent, (i : Int), parentId⟩
    else
      let found := findTAP c id (some d.id) root 0
      if found.todo.isSome then found
      else findTAP ts id parentId root (i + 1)

/-- `findTodoAndParentById(todos, id, parentId, _index, rootTodos)` (the unused
`_index` default argument is dropped). -/
def findTodoAndParentById (todos : TodoList) (id : String) (parentId : Option String)
    (rootTodos : TodoList) : FindContext :=
  findTAP todos id parentId rootTodos 0

/-- `updateTodoInTree(todos, id, updater)`: map the tree, replacing every node
whose id matches by `updater` of it (not recursing below a match). -/
def updateTodoInTree : TodoList → String → (Todo → Todo) → TodoList
  | .nil, _, _ => .nil
  | .cons (.mk d c) ts, id, updater =>
    .cons (if d.id = id then updater (.mk d c) else .mk d (updateTodoInTree c id updater))
      (updateTodoInTree ts id updater)

/-- `removeTodoFromTree(todos, id)`: the source's
`filter(todo => todo.id !== id)` followed by a map recursing into children,
written as one fused recursion. -/
def removeTodoFromTree : TodoList → String → TodoList
  | .nil, _ => .nil
  | .cons (.mk d c) ts, id =>
    if d.id = id then removeTodoFromTree ts id
    else .cons (.mk d (removeTodoFromTree c id)) (removeTodoFromTree ts id)

/-- `addTodoToTree(todos, parentId, newTodo)`: prepend at root when no parent
id is given, else prepend to the named parent's children (marking the parent
expanded), not recursing below a matching parent. -/
def addTodoToTree : TodoList → Option String → Todo → TodoList
  | todos, none, newTodo => .cons newTodo todos
  | .nil, some _, _ => .nil
  | .cons (.mk d c) ts, some parentId, newTodo =>
    if d.id = parentId then
      .cons (.mk { d with expanded := true } (.cons newTodo c)) (addTodoToTree ts (some parentId) newTodo)
    else
      .cons (.mk d (addTodoToTree c (some parentId) newTodo)) (addTodoToTree ts (some parentId) newTodo)

mutual

/-- `isAllChildrenCompleted(todo)`: true when the node has no children, else
when every child is completed and recursively so. -/
def isAllChildrenCompleted : Todo → Bool
  | .mk _ c => c.isEmpty || everyCompleted c

/-- The `children.every(child => child.completed && isAllChildrenCompleted(child))`
part of `isAllChildrenCompleted`. -/
def everyCompleted : TodoList → Bool
  | .nil => true
  | .cons t ts => (t.completed && isAllChildrenCompleted t) && everyCompleted ts

end

theorem sizeOf_filter_le (p : Todo → Bool) : (ts : TodoList) → sizeOf (TodoList.filter p ts) ≤ sizeOf ts
  | .nil => by rw [TodoList.filter]
  | .cons t ts => by
    rw [TodoList.filter]
    have ih := sizeOf_filter_le p ts
    by_cases h : p t = true
    · simp [h, TodoList.cons.sizeOf_spec]
      omega
    · simp [h, TodoList.cons.sizeOf_spec]
      omega

mutual

/-- `sortTodos(todos)`: stable partition of each level into incomplete-first,
completed-second, recursing into children. -/
def sortTodos (ts : TodoList) : TodoList :=
  (sortMapped (ts.filter fun t => !t.completed)) ++ (sortMapped (ts.filter fun t => t.completed))
termination_by 2 * sizeOf ts + 1
decreasing_by
  · have := sizeOf_filter_le (fun t => !t.completed) ts
    omega
  · have := sizeOf_filter_le (fun t => t.completed) ts
    omega

/-- The `map(todo => ({ ...todo, children: sortTodos(todo.children) }))` applied
to each partition inside `sortTodos`. -/
def sortMapped : TodoList → TodoList
  | .nil => .nil
  | .cons (.mk d c) rest => .cons (.mk d (sortTodos c)) (sortMapped rest)
termination_by ts => 2 * sizeOf ts
decreasing_by
  · simp only [TodoList.cons.sizeOf_spec, Todo.mk.sizeOf_spec]
    omega
  · simp only [TodoList.cons.sizeOf_spec]
    omega

end

/-- The `todos.map(t => t.id === targetId ? { ...t, children: [...t.children, draggedTodo], expanded: true } : t)`
branch of `insertTodo` for `position === 'inside'`. -/
def insideMap : TodoList → String → Todo → TodoList
  | .nil, _, _ => .nil
  | .cons (.mk d c) ts, targetId, dragged =>
    .cons (if d.id = targetId then .mk { d with expanded := true } (c ++ .cons dragged .nil) else .mk d c)
      (insideMap ts targetId dragged)

/-- The `todos.map(t => t.id === todo.id ? { ...t, children: updatedChildren } : t)`
branch of `insertTodo` after a recursive child insertion changed something. -/
def childMap : TodoList → String → TodoList → TodoList
  | .nil, _, _ => .nil
  | .cons (.mk d c) ts, targetId, updatedChildren =>
    .cons (if d.id = targetId then .mk d updatedChildren else .mk d c)
      (childMap ts targetId updatedChildren)

/-- The indexed `for (let i = 0; ...)` loop of `insertTodo`: `whole` is the
current level's list, the final argument the suffix not yet examined. The
source compares `updatedChildren !== todo.children` by reference; a recursive
insertion returns a new array exactly when it changed something, so structural
disequality is the faithful translation. -/
def insertLoop (targetId : String) (dragged : Todo) (position : Position) (whole : TodoList) :
    Nat → TodoList → TodoList
  | _, .nil => whole
  | i, .cons (.mk d c) rest =>
    if d.id = targetId then
      match position with
      | .inside => insideMap whole targetId dragged
      | .before => whole.take i ++ .cons dragged (whole.drop i)
      | .after => whole.take (i + 1) ++ .cons dragged (whole.drop (i + 1))
    else
      let updatedChildren := insertLoop targetId dragged position c 0 c
      if updatedChildren ≠ c then childMap whole d.id updatedChildren
      else insertLoop targetId dragged position whole (i + 1) rest

/-- `insertTodo(todos, targetId, draggedTodo, position)` from `moveTodo`. -/
def insertTodo (todos : TodoList) (targetId : String) (dragged : Todo) (position : Position) : TodoList :=
  insertLoop targetId dragged position todos 0 todos

/-- The `oldPosition` computation of `moveTodo` (defaults to `'after'`;
`'before'` exactly when the dragged node sat at index 0 under a parent). -/
def moveOldPosition (parent : Option Todo) (index : Int) : Position :=
  if parent.isSome = true ∧ index ≠ -1 then (if index = 0 then .before else .after) else .after

/-- `targetParent && targetParent.completed` of the second `moveTodo` guard. -/
def isSomeCompleted : Option Todo → Bool
  | some p => p.completed
  | none => false

/-- `recordOperation(operation)`: push onto the undo stack, evict the oldest
entry if the capacity is exceeded, clear the redo stack. -/
def recordOperation (s : TodoState) (op : TodoOperation) : TodoState :=
  let newStack := s.undoStack ++ [op]
  { s with
    undoStack := if MAX_HISTORY_SIZE < newStack.length then newStack.drop 1 else newStack
    redoStack := [] }

/-- `applyOperation(currentTodos, operation, isRedo)`: replay an operation
against a tree. `now` models the `new Date()` in the redo branch of
`toggleCompletion`. Note that the `add` and `delete` branches of the source
ignore `isRedo` entirely, and the `delete` branch ignores `previousIndex`. -/
def applyOperation (currentTodos : TodoList) (operation : TodoOperation) (isRedo : Bool) (now : Nat) :
    TodoList :=
  match operation with
  | .add todo _ _ => removeTodoFromTree currentTodos todo.id
  | .delete todo parentId _ _ => addTodoToTree currentTodos parentId todo
  | .update id oldTodo newTodo _ =>
    updateTodoInTree currentTodos id (fun _ => if isRedo then newTodo else oldTodo)
  | .move draggedId oldTargetId _ newTargetId _ _ =>
    match findTodoById currentTodos draggedId with
    | none => currentTodos
    | some draggedTodo =>
      let tempTodosWithoutDragged := removeTodoFromTree currentTodos draggedId
      if isRedo then addTodoToTree tempTodosWithoutDragged newTargetId draggedTodo
      else addTodoToTree tempTodosWithoutDragged oldTargetId draggedTodo
  | .toggleCompletion id oldCompleted oldEndDate _ =>
    updateTodoInTree currentTodos id (fun todo =>
      .mk { todo.data with
              completed := if isRedo then !oldCompleted else oldCompleted
              endDate := if isRedo then (if oldCompleted then none else some now) else oldEndDate }
        todo.children)
  | .toggleExpansion id oldExpanded _ =>
    updateTodoInTree currentTodos id (fun todo =>
      .mk { todo.data with expanded := if isRedo then !oldExpanded else oldExpanded } todo.children)

/-- `undo()`: pop the last undo-stack operation, apply its inverse, sort,
push the popped operation onto the redo stack. -/
def undo (s : TodoState) (now : Nat) : TodoState :=
  match s.undoStack.getLast? with
  | none => s
  | some lastOperation =>
    { todos := sortTodos (applyOperation s.todos lastOperation false now)
      undoStack := s.undoStack.dropLast
      redoStack := s.redoStack ++ [lastOperation] }

/-- `redo()`: pop the last redo-stack operation, apply its forward effect,
sort, push the popped operation onto the undo stack. -/
def redo (s : TodoState) (now : Nat) : TodoState :=
  match s.redoStack.getLast? with
  | none => s
  | some nextOperation =>
    { todos := sortTodos (applyOperation s.todos nextOperation true now)
      undoStack := s.undoStack ++ [nextOperation]
      redoStack := s.redoStack.dropLast }

/-- `addTodo(title, parentId)`: build a fresh todo (`newId`, `now` model
`uuidv4()` and `new Date()`), insert it, record an `add` operation, sort.
The `editingTodoId` UI side effect for empty titles is outside the model. -/
def addTodo (s : TodoState) (title : String) (parentId : Option String) (newId : String) (now : Nat) :
    TodoState :=
  let newTodo : Todo := .mk ⟨newId, title, false, true, none, now, now⟩ .nil
  let newTodos := addTodoToTree s.todos parentId newTodo
  let s1 := recordOperation s (.add newTodo parentId now)
  { s1 with todos := sortTodos newTodos }

/-- `toggleTodo(id)`: gated by the children-completion check; records a
`toggleCompletion` operation and flips `completed`, `updatedAt`, `endDate`. -/
def toggleTodo (s : TodoState) (id : String) (now : Nat) : TodoState :=
  match findTodoById s.todos id with
  | none => s
  | some oldTodo =>
    let canToggle := oldTodo.children.isEmpty || isAllChildrenCompleted oldTodo
    if canToggle = false then s
    else
      let newCompleted := !oldTodo.completed
      let newEndDate := if newCompleted then some now else none
      let s1 := recordOperation s (.toggleCompletion oldTodo.id oldTodo.completed oldTodo.endDate now)
      { s1 with
        todos := sortTodos (updateTodoInTree s.todos id (fun todo =>
          .mk { todo.data with completed := newCompleted, updatedAt := now, endDate := newEndDate }
            todo.children)) }

/-- `deleteTodo(id)`: record a `delete` operation carrying the removed subtree
and its former parent and index, then remove the subtree and sort. -/
def deleteTodo (s : TodoState) (id : String) (now : Nat) : TodoState :=
  let ctx := findTodoAndParentById s.todos id none s.todos
  match ctx.todo with
  | none => s
  | some deletedTodo =>
    let s1 := recordOperation s (.delete deletedTodo ctx.parentId ctx.index now)
    { s1 with todos := sortTodos (removeTodoFromTree s.todos id) }

/-- `updateTodo(id, newTitle)`: record an `update` operation carrying the old
and new node snapshots, set the title and `updatedAt`, sort. -/
def updateTodo (s : TodoState) (id : String) (newTitle : String) (now : Nat) : TodoState :=
  match findTodoById s.todos id with
  | none => s
  | some oldTodo =>
    let newTodo : Todo := .mk { oldTodo.data with title := newTitle, updatedAt := now } oldTodo.children
    let s1 := recordOperation s (.update oldTodo.id oldTodo newTodo now)
    { s1 with
      todos := sortTodos (updateTodoInTree s.todos id (fun todo =>
        .mk { todo.data with title := newTitle, updatedAt := now } todo.children)) }

/-- `toggleExpanded(id)`: record a `toggleExpansion` operation and flip
`expanded` (no re-sort in the source). -/
def toggleExpanded (s : TodoState) (id : String) (now : Nat) : TodoState :=
  match findTodoById s.todos id with
  | none => s
  | some oldTodo =>
    let s1 := recordOperation s (.toggleExpansion oldTodo.id oldTodo.expanded now)
    { s1 with
      todos := updateTodoInTree s.todos id (fun todo =>
        .mk { todo.data with expanded := !todo.expanded, updatedAt := now } todo.children) }

/-- `moveTodo(draggedId, targetId, position)`: detach the dragged subtree and
re-insert it at the target (root append for a null target), guarded by the two
completion checks; records a `move` operation. The source applies no re-sort. -/
def moveTodo (s : TodoState) (draggedId : String) (targetId : Option String) (position : Position)
    (now : Nat) : TodoState :=
  match findTodoById s.todos draggedId with
  | none => s
  | some draggedTodo =>
    let ctx := findTodoAndParentById s.todos draggedId none s.todos
    let oldTargetId := ctx.parentId
    let oldPosition := moveOldPosition ctx.parent ctx.index
    let todosWithoutDragged := removeTodoFromTree s.todos draggedId
    match targetId with
    | none =>
      let finalTodos := todosWithoutDragged ++ .cons draggedTodo .nil
      let s1 := recordOperation s (.move draggedId oldTargetId oldPosition none position now)
      { s1 with todos := finalTodos }
    | some tid =>
      let targetResult := findTodoAndParentById s.todos tid none s.todos
      match targetResult.todo with
      | none => s
      | some targetTodo =>
        if position = .inside ∧ targetTodo.completed = true ∧ draggedTodo.completed = false then s
        else if isSomeCompleted targetResult.parent = true ∧ draggedTodo.completed = false then s
        else
          let finalTodos := insertTodo todosWithoutDragged tid draggedTodo position
          let s1 := recordOperation s (.move draggedId oldTargetId oldPosition (some tid) position now)
          { s1 with todos := finalTodos }

/-- Whether some node of the forest (at any depth) has `completed = false`;
applied to a node's children this is the claims' "has an incomplete
(strict) descendant". -/
def hasIncompleteTodo : TodoList → Bool
  | .nil => false
  | .cons (.mk d c) ts => (!d.completed || hasIncompleteTodo c) || hasIncompleteTodo ts

def allCompleted : TodoList → Bool
  | .nil => true
  | .cons t ts => t.completed && allCompleted ts

/-- The ordering invariant of the spec: at every level of the forest, every
completed node is followed only by completed nodes (so all completed nodes
sit after all incomplete siblings), recursively. -/
def treeSorted : TodoList → Bool
  | .nil => true
  | .cons (.mk d c) ts => (!d.completed || allCompleted ts) && treeSorted c && treeSorted ts

/-- The `initialTodos` fixture of `useTodos.ts`, with `Date` literals mapped to
distinct naturals in chronological order. -/
def initialTodos : TodoList :=
  .cons (.mk ⟨"1", "Plan vacation", false, true, none, 2, 2⟩
    (.cons (.mk ⟨"2", "Book flights", false, false, none, 3, 9⟩ .nil)
      (.cons (.mk ⟨"3", "Find accommodation", false, true, none, 4, 4⟩
        (.cons (.mk ⟨"4", "Research hotels", false, false, none, 5, 10⟩ .nil)
          (.cons (.mk ⟨"5", "Compare prices", false, false, none, 6, 6⟩ .nil) .nil)))
        .nil)))
    (.cons (.mk ⟨"6", "Complete project", false, false, none, 7, 7⟩
      (.cons (.mk ⟨"7", "Write documentation", false, false, none, 8, 8⟩ .nil) .nil))
      (.cons (.mk ⟨"8", "Setup development environment", true, false, some 1, 0, 1⟩ .nil) .nil))

/-- The initial hook state: the fixture tree and empty undo/redo stacks. -/
def initialState : TodoState := ⟨initialTodos, [], []⟩

theorem List.length_le_of_drop_append {α : Type} (l : List α) (x : α) :
    ((l ++ [x]).drop 1).length = l.length := by
  simp

mutual

theorem isAllChildrenCompleted_eq_not_hasIncomplete (d : TodoData) (c : TodoList) :
    isAllChildrenCompleted (.mk d c) = !hasIncompleteTodo c := by
  match c with
  | .nil => rfl
  | .cons t ts =>
    rw [isAllChildrenCompleted]
    show (TodoList.isEmpty (.cons t ts) || everyCompleted (.cons t ts)) = !hasIncompleteTodo (.cons t ts)
    rw [TodoList.isEmpty, Bool.false_or]
    exact everyCompleted_eq_not_hasIncomplete (.cons t ts)

theorem everyCompleted_eq_not_hasIncomplete (ts : TodoList) :
    everyCompleted ts = !hasIncompleteTodo ts := by
  match ts with
  | .nil => rfl
  | .cons (.mk d c) rest =>
    rw [everyCompleted, hasIncompleteTodo,
      isAllChildrenCompleted_eq_not_hasIncomplete d c,
      everyCompleted_eq_not_hasIncomplete rest]
    show ((Todo.completed (.mk d c) && !hasIncompleteTodo c) && !hasIncompleteTodo rest)
      = !((!d.completed || hasIncompleteTodo c) || hasIncompleteTodo rest)
    simp only [Todo.completed, Todo.data]
    cases d.completed <;> cases hasIncompleteTodo c <;> cases hasIncompleteTodo rest <;> rfl

end

/-- **C9**: `recordOperation` keeps the undo stack within `MAX_HISTORY_SIZE`
(given an in-capacity incoming stack, which holds for every reachable state),
evicts the oldest entry exactly when pushing would exceed the capacity, and
clears the redo stack. -/
theorem recordOperation_bounded (s : TodoState) (op : TodoOperation)
    (h : s.undoStack.length ≤ MAX_HISTORY_SIZE) :
    (recordOperation s op).undoStack.length ≤ MAX_HISTORY_SIZE ∧
    (recordOperation s op).redoStack = [] ∧
    (s.undoStack.length = MAX_HISTORY_SIZE →
      (recordOperation s op).undoStack = s.undoStack.drop 1 ++ [op]) ∧
    (s.undoStack.length < MAX_HISTORY_SIZE →
      (recordOperation s op).undoStack = s.undoStack ++ [op]) := by
  simp only [recordOperation]
  by_cases hlen : MAX_HISTORY_SIZE < (s.undoStack ++ [op]).length
  · simp only [hlen, if_true]
    refine ⟨?_, trivial, ?_, ?_⟩
    · simp only [List.length_le_of_drop_append]
      exact h
    · intro hcap
      rw [List.drop_append_of_le_length]
      rw [hcap, MAX_HISTORY_SIZE]
      omega
    · intro hlt
      simp only [List.length_append, List.length_cons, List.length_nil] at hlen
      omega
  · simp only [hlen, if_false]
    refine ⟨?_, trivial, ?_, ?_⟩
    · simp only [List.length_append, List.length_cons, List.length_nil] at hlen ⊢
      omega
    · intro hcap
      simp only [List.length_append, List.length_cons, List.length_nil] at hlen
      omega
    · intro _
      trivial

/-- Witness for `recordOperation_bounded` at a concrete one-element stack. -/
theorem recordOperation_bounded_witness :
    (recordOperation ⟨.nil, [.toggleExpansion "x" false 0], []⟩ (.toggleExpansion "y" true 1)).undoStack
      = [.toggleExpansion "x" false 0, .toggleExpansion "y" true 1] :=
  (recordOperation_bounded ⟨.nil, [.toggleExpansion "x" false 0], []⟩ (.toggleExpansion "y" true 1)
    (by decide)).2.2.2 (by decide)

theorem isAllChildrenCompleted_eq : (n : Todo) →
    isAllChildrenCompleted n = !hasIncompleteTodo n.children
  | .mk d c => isAllChildrenCompleted_eq_not_hasIncomplete d c

theorem isEmpty_false_of_hasIncomplete : (c : TodoList) →
    hasIncompleteTodo c = true → TodoList.isEmpty c = false
  | .cons _ _, _ => rfl
  | .nil, h => absurd h (by rw [hasIncompleteTodo]; simp)

/-- **C6**: `toggleCompletion` on a node that has an incomplete descendant is
rejected: the whole state — tree, undo stack, redo stack — is returned
unchanged, so no operation is recorded. -/
theorem toggleTodo_incomplete_descendant_rejected (s : TodoState) (id : String) (now : Nat)
    (n : Todo)
    (hfind : findTodoById s.todos id = some n)
    (hn : n.completed = false)
    (hdesc : hasIncompleteTodo n.children = true) :
    toggleTodo s id now = s := by
  have hall : isAllChildrenCompleted n = false := by
    rw [isAllChildrenCompleted_eq, hdesc]
    rfl
  have hempty : TodoList.isEmpty n.children = false :=
    isEmpty_false_of_hasIncomplete n.children hdesc
  simp only [toggleTodo, hfind, hempty, hall, Bool.or_false]
  simp

/-- A leaf todo used by concrete witnesses and counterexamples. -/
def todoLeaf (i : String) (c : Bool) : Todo := .mk ⟨i, i, c, false, none, 0, 0⟩ .nil

/-- Witness for `toggleTodo_incomplete_descendant_rejected`: a parent with one
incomplete child is not toggled. -/
theorem toggleTodo_incomplete_descendant_rejected_witness :
    toggleTodo ⟨.cons (.mk ⟨"p", "P", false, true, none, 0, 0⟩ (.cons (todoLeaf "c" false) .nil)) .nil, [], []⟩ "p" 3
      = ⟨.cons (.mk ⟨"p", "P", false, true, none, 0, 0⟩ (.cons (todoLeaf "c" false) .nil)) .nil, [], []⟩ :=
  toggleTodo_incomplete_descendant_rejected _ "p" 3
    (.mk ⟨"p", "P", false, true, none, 0, 0⟩ (.cons (todoLeaf "c" false) .nil))
    (by decide) (by decide) (by decide)

/-- **C7**: `moveNode(draggedId, targetId, 'inside')` with an incomplete
dragged node and a completed target is rejected: the state is unchanged and
nothing is recorded. -/
theorem moveTodo_inside_completed_rejected (s : TodoState) (dId tId : String) (now : Nat)
    (d t : Todo)
    (hd : findTodoById s.todos dId = some d)
    (hdc : d.completed = false)
    (ht : (findTodoAndParentById s.todos tId none s.todos).todo = some t)
    (htc : t.completed = true) :
    moveTodo s dId (some tId) .inside now = s := by
  simp only [moveTodo, hd, ht, htc, hdc, and_self, and_true, true_and, if_true]

/-- Witness for `moveTodo_inside_completed_rejected`: dragging an incomplete
root leaf inside a completed root leaf is a no-op. -/
theorem moveTodo_inside_completed_rejected_witness :
    moveTodo ⟨.cons (todoLeaf "d" false) (.cons (todoLeaf "t" true) .nil), [], []⟩ "d" (some "t") .inside 9
      = ⟨.cons (todoLeaf "d" false) (.cons (todoLeaf "t" true) .nil), [], []⟩ :=
  moveTodo_inside_completed_rejected _ "d" "t" 9 (todoLeaf "d" false) (todoLeaf "t" true)
    (by decide) (by decide) (by decide) (by decide)

theorem TodoList.nil_append (ys : TodoList) : TodoList.nil ++ ys = ys := rfl

theorem TodoList.cons_append (x : Todo) (xs ys : TodoList) :
    TodoList.cons x xs ++ ys = .cons x (xs ++ ys) := rfl

/-- **C2** (code divergence): with an `add` operation on top of the redo stack
and the added node absent from the tree — exactly the state `addTodo` followed
by `undo` produces — `redo()` leaves the tree without the node (the `add`
branch of `applyOperation` removes by id regardless of `isRedo`), while still
pushing the operation onto the undo stack. -/
theorem redo_add_removes_node :
    (redo ⟨.nil, [], [.add (todoLeaf "a" false) none 0]⟩ 1).todos = .nil ∧
    (redo ⟨.nil, [], [.add (todoLeaf "a" false) none 0]⟩ 1).undoStack
      = [.add (todoLeaf "a" false) none 0] ∧
    (redo ⟨.nil, [], [.add (todoLeaf "a" false) none 0]⟩ 1).redoStack = [] ∧
    findTodoById (redo ⟨.nil, [], [.add (todoLeaf "a" false) none 0]⟩ 1).todos "a" = none := by
  simp [redo, applyOperation, removeTodoFromTree, sortTodos, sortMapped, TodoList.filter,
    findTodoById, todoLeaf, Todo.id, Todo.data, TodoList.nil_append]

/-- **C1** (code divergence): starting from the empty tree, `addTodo` then
`undo` does restore the pre-mutation (empty) tree, but `redo` afterwards does
NOT restore the post-mutation tree: the tree stays empty instead of containing
the added node again. -/
theorem add_undo_redo_not_roundtrip :
    (addTodo ⟨.nil, [], []⟩ "A" none "a" 0).todos
      = .cons (.mk ⟨"a", "A", false, true, none, 0, 0⟩ .nil) .nil ∧
    (undo (addTodo ⟨.nil, [], []⟩ "A" none "a" 0) 1).todos = .nil ∧
    (redo (undo (addTodo ⟨.nil, [], []⟩ "A" none "a" 0) 1) 2).todos = .nil ∧
    (redo (undo (addTodo ⟨.nil, [], []⟩ "A" none "a" 0) 1) 2).todos
      ≠ (addTodo ⟨.nil, [], []⟩ "A" none "a" 0).todos := by
  simp [addTodo, undo, redo, recordOperation, applyOperation, addTodoToTree, removeTodoFromTree,
    sortTodos, sortMapped, TodoList.filter, findTodoById, Todo.id, Todo.completed, Todo.data,
    TodoList.nil_append, TodoList.cons_append, MAX_HISTORY_SIZE]

/-- A parent with two incomplete children `a` (index 0) and `b` (index 1),
used to exercise the delete/undo index behaviour. -/
def statePAB : TodoState :=
  ⟨.cons (.mk ⟨"p", "P", false, true, none, 0, 0⟩
      (.cons (todoLeaf "a" false) (.cons (todoLeaf "b" false) .nil))) .nil, [], []⟩

/-- **C3** (code divergence): deleting `b` (former index 1 under parent `p`)
records `previousIndex = 1`, but `undo()` re-inserts the subtree at the front
of the former parent's children: `findTodoAndParentById` afterwards reports
index 0, not the recorded former index 1. -/
theorem undo_delete_ignores_previous_index :
    (deleteTodo statePAB "b" 1).undoStack = [.delete (todoLeaf "b" false) (some "p") 1 1] ∧
    (findTodoAndParentById (undo (deleteTodo statePAB "b" 1) 2).todos "b" none
        (undo (deleteTodo statePAB "b" 1) 2).todos).parentId = some "p" ∧
    (findTodoAndParentById (undo (deleteTodo statePAB "b" 1) 2).todos "b" none
        (undo (deleteTodo statePAB "b" 1) 2).todos).index = 0 := by
  simp [deleteTodo, undo, recordOperation, applyOperation, addTodoToTree, removeTodoFromTree,
    sortTodos, sortMapped, TodoList.filter, findTodoById, findInTodo, findTodoAndParentById,
    findTAP, statePAB, todoLeaf, Todo.id, Todo.completed, Todo.data, Todo.children,
    TodoList.nil_append, TodoList.cons_append, MAX_HISTORY_SIZE]

/-- **C4** (code divergence): the initial tree satisfies the ordering
invariant, and one reachable mutation — `moveNode('1', '8', 'after')`, whose
target `8` is the completed root node — produces a tree that violates it,
because `moveTodo` never re-applies `sortTodos`. A `move` operation is
recorded, so the mutation is a real (non-rejected) one. -/
theorem moveTodo_breaks_completed_ordering :
    treeSorted initialState.todos = true ∧
    (moveTodo initialState "1" (some "8") .after 100).undoStack.length = 1 ∧
    treeSorted (moveTodo initialState "1" (some "8") .after 100).todos = false := by
  refine ⟨by decide, by decide, by decide⟩

/-- A completed parent `p` with a completed leaf child `c`. -/
def completedParentState : TodoState :=
  ⟨.cons (.mk ⟨"p", "P", true, false, some 2, 0, 2⟩
      (.cons (.mk ⟨"c", "C", true, false, some 1, 0, 1⟩ .nil) .nil)) .nil, [], []⟩

/-- **C5** (code divergence): `toggleCompletion` has no completed-ancestor
guard: toggling the completed leaf `c` nested under the completed parent `p`
transitions `c.completed` from `true` to `false` while `p` stays completed. -/
theorem toggleTodo_unchecks_under_completed_parent :
    findTodoById completedParentState.todos "c" = some (.mk ⟨"c", "C", true, false, some 1, 0, 1⟩ .nil) ∧
    findTodoById (toggleTodo completedParentState "c" 5).todos "c"
      = some (.mk ⟨"c", "C", false, false, none, 0, 5⟩ .nil) ∧
    findTodoById (toggleTodo completedParentState "c" 5).todos "p"
      = some (.mk ⟨"p", "P", true, false, some 2, 0, 2⟩
          (.cons (.mk ⟨"c", "C", false, false, none, 0, 5⟩ .nil) .nil)) := by
  refine ⟨by decide, ?_, ?_⟩ <;>
    simp [toggleTodo, recordOperation, updateTodoInTree, isAllChildrenCompleted, everyCompleted,
      sortTodos, sortMapped, TodoList.filter, TodoList.isEmpty, findTodoById, findInTodo,
      completedParentState, Todo.id, Todo.completed, Todo.endDate, Todo.children, Todo.data,
      TodoList.nil_append, TodoList.cons_append, MAX_HISTORY_SIZE]

theorem findTodoById_cons_none (d : TodoData) (c rest : TodoList) (id : String)
    (h : findTodoById (.cons (.mk d c) rest) id = none) :
    d.id ≠ id ∧ findTodoById c id = none ∧ findTodoById rest id = none := by
  rw [findTodoById, findInTodo] at h
  by_cases hid : d.id = id
  · rw [if_pos hid] at h
    exact absurd h (by simp)
  · rw [if_neg hid] at h
    cases hc : findTodoById c id with
    | some u =>
      rw [hc] at h
      exact absurd h (by simp)
    | none =>
      rw [hc] at h
      exact ⟨hid, rfl, h⟩

theorem findTAP_todo : (ts : TodoList) → (id : String) → (pid : Option String) →
    (root : TodoList) → (i : Nat) →
    (findTAP ts id pid root i).todo = findTodoById ts id
  | .nil, _, _, _, _ => rfl
  | .cons (.mk d c) rest, id, pid, root, i => by
    simp only [findTAP, findTodoById, findInTodo]
    have ihc := findTAP_todo c id (some d.id) root 0
    have ihr := findTAP_todo rest id pid root (i + 1)
    by_cases hid : d.id = id
    · rw [if_pos hid, if_pos hid]
    · rw [if_neg hid, if_neg hid]
      cases hc : findTodoById c id with
      | some u =>
        rw [hc] at ihc
        simp only [ihc, Option.isSome_some, if_true, hc]
      | none =>
        rw [hc] at ihc
        simp only [ihc, Option.isSome_none, Bool.false_eq_true, if_false, hc]
        exact ihr

theorem addTodoToTree_notFound : (ts : TodoList) → (pid : String) → (n : Todo) →
    findTodoById ts pid = none → addTodoToTree ts (some pid) n = ts
  | .nil, _, _, _ => rfl
  | .cons (.mk d c) rest, pid, n, h => by
    obtain ⟨hid, hc, hrest⟩ := findTodoById_cons_none d c rest pid h
    rw [addTodoToTree, if_neg hid,
      addTodoToTree_notFound c pid n hc, addTodoToTree_notFound rest pid n hrest]

theorem findTodoById_remove_self : (ts : TodoList) → (id : String) →
    findTodoById (removeTodoFromTree ts id) id = none
  | .nil, _ => rfl
  | .cons (.mk d c) rest, id => by
    rw [removeTodoFromTree]
    by_cases hid : d.id = id
    · rw [if_pos hid]
      exact findTodoById_remove_self rest id
    · rw [if_neg hid]
      rw [findTodoById, findInTodo]
      rw [if_neg hid, findTodoById_remove_self c id]
      exact findTodoById_remove_self rest id

theorem insertLoop_notFound (tid : String) (dragged : Todo) (pos : Position) :
    (suffix : TodoList) → (whole : TodoList) → (i : Nat) →
    findTodoById suffix tid = none →
    insertLoop tid dragged pos whole i suffix = whole
  | .nil, _, _, _ => rfl
  | .cons (.mk d c) rest, whole, i, h => by
    obtain ⟨hid, hc, hrest⟩ := findTodoById_cons_none d c rest tid h
    simp only [insertLoop]
    rw [if_neg hid]
    have hins : insertLoop tid dragged pos c 0 c = c :=
      insertLoop_notFound tid dragged pos c c 0 hc
    simp only [hins, ne_self_iff_false, if_false]
    exact insertLoop_notFound tid dragged pos rest whole (i + 1) hrest

theorem insertTodo_notFound (ts : TodoList) (tid : String) (dragged : Todo) (pos : Position)
    (h : findTodoById ts tid = none) : insertTodo ts tid dragged pos = ts :=
  insertLoop_notFound tid dragged pos ts ts 0 h

/-- **C8** counterexample: `addNode` naming a missing parent id leaves the
tree unchanged but still records an `add` operation, so it is not a complete
no-op as the claim states. -/
theorem addTodo_missing_parent_records :
    (addTodo ⟨.cons (todoLeaf "a" false) .nil, [], []⟩ "B" (some "zz") "b" 4).todos
      = .cons (todoLeaf "a" false) .nil ∧
    (addTodo ⟨.cons (todoLeaf "a" false) .nil, [], []⟩ "B" (some "zz") "b" 4).undoStack
      = [.add (.mk ⟨"b", "B", false, true, none, 4, 4⟩ .nil) (some "zz") 4] := by
  simp [addTodo, recordOperation, addTodoToTree, sortTodos, sortMapped, TodoList.filter,
    todoLeaf, Todo.id, Todo.completed, Todo.data, TodoList.nil_append, TodoList.cons_append,
    MAX_HISTORY_SIZE]

/-- **C8** amended: a mutation referencing a missing id is a complete no-op
(state returned unchanged, nothing recorded) for `deleteNode`, `renameNode`,
`toggleCompletion`, `toggleExpansion`, and `moveNode` (for both a missing
dragged id and a missing target id); `addNode` naming a missing parent leaves
the tree unchanged apart from the global re-sort but still records its `add`
operation. -/
theorem missing_id_noops (s : TodoState) (id : String) (now : Nat) (title newId : String)
    (tid : Option String) (pos : Position)
    (h : findTodoById s.todos id = none) :
    deleteTodo s id now = s ∧
    updateTodo s id title now = s ∧
    toggleTodo s id now = s ∧
    toggleExpanded s id now = s ∧
    moveTodo s id tid pos now = s ∧
    (∀ dId d, findTodoById s.todos dId = some d → moveTodo s dId (some id) pos now = s) ∧
    (addTodo s title (some id) newId now).todos = sortTodos s.todos ∧
    (addTodo s title (some id) newId now).undoStack
      = (recordOperation s (.add (.mk ⟨newId, title, false, true, none, now, now⟩ .nil) (some id) now)).undoStack := by
  have htap : (findTodoAndParentById s.todos id none s.todos).todo = none := by
    rw [findTodoAndParentById, findTAP_todo, h]
  refine ⟨?_, ?_, ?_, ?_, ?_, ?_, ?_, ?_⟩
  · simp only [deleteTodo, findTodoAndParentById] at htap ⊢
    rw [htap]
  · simp only [updateTodo, h]
  · simp only [toggleTodo, h]
  · simp only [toggleExpanded, h]
  · simp only [moveTodo, h]
  · intro dId d hd
    simp only [moveTodo, hd, findTodoAndParentById] at htap ⊢
    rw [htap]
  · simp only [addTodo, addTodoToTree_notFound s.todos id _ h]
  · simp only [addTodo]

/-- Witness for `missing_id_noops` at a one-leaf tree and the absent id
`"zz"`, including the missing-target `moveNode` case instantiated at the
present dragged node `"a"`. -/
theorem missing_id_noops_witness :
    deleteTodo ⟨.cons (todoLeaf "a" false) .nil, [], []⟩ "zz" 7
      = ⟨.cons (todoLeaf "a" false) .nil, [], []⟩ ∧
    toggleTodo ⟨.cons (todoLeaf "a" false) .nil, [], []⟩ "zz" 7
      = ⟨.cons (todoLeaf "a" false) .nil, [], []⟩ ∧
    moveTodo ⟨.cons (todoLeaf "a" false) .nil, [], []⟩ "a" (some "zz") .before 7
      = ⟨.cons (todoLeaf "a" false) .nil, [], []⟩ := by
  have h := missing_id_noops ⟨.cons (todoLeaf "a" false) .nil, [], []⟩ "zz" 7 "T" "n"
    (some "x") .before (by decide)
  exact ⟨h.1, h.2.2.1, h.2.2.2.2.2.1 "a" (todoLeaf "a" false) (by decide)⟩

/-- A tree whose root `d` (incomplete) has the completed leaf child `t`:
moving `d` inside its own descendant `t` trips the completed-target guard. -/
def descGuardState : TodoState :=
  ⟨.cons (.mk ⟨"d", "D", false, true, none, 0, 0⟩ (.cons (todoLeaf "t" true) .nil)) .nil, [], []⟩

/-- **C10** counterexample: moving incomplete `d` inside its completed strict
descendant `t` is rejected by the completed-target guard, so the subtree is
NOT removed (and no operation is recorded), contradicting the universally
quantified claim. -/
theorem moveTodo_descendant_guard_rejects :
    moveTodo descGuardState "d" (some "t") .inside 3 = descGuardState ∧
    findTodoById (moveTodo descGuardState "d" (some "t") .inside 3).todos "d"
      = some (.mk ⟨"d", "D", false, true, none, 0, 0⟩ (.cons (todoLeaf "t" true) .nil)) := by
  refine ⟨by decide, by decide⟩

/-- **C10** amended: moving a node `d` to a target `t` that exists only inside
`d`'s own subtree removes the whole subtree rooted at `d` — the result is
exactly `removeTodoFromTree` of the tree, with both `d` and `t` absent — while
still recording a `move` operation and clearing the redo stack, provided
neither completion guard rejects the move. -/
theorem moveTodo_into_descendant_drops_subtree (s : TodoState) (dId tId : String)
    (pos : Position) (now : Nat) (d t : Todo)
    (hd : findTodoById s.todos dId = some d)
    (ht : (findTodoAndParentById s.todos tId none s.todos).todo = some t)
    (habsent : findTodoById (removeTodoFromTree s.todos dId) tId = none)
    (hg1 : ¬(pos = .inside ∧ t.completed = true ∧ d.completed = false))
    (hg2 : ¬(isSomeCompleted (findTodoAndParentById s.todos tId none s.todos).parent = true
        ∧ d.completed = false)) :
    (moveTodo s dId (some tId) pos now).todos = removeTodoFromTree s.todos dId ∧
    findTodoById (moveTodo s dId (some tId) pos now).todos dId = none ∧
    findTodoById (moveTodo s dId (some tId) pos now).todos tId = none ∧
    (moveTodo s dId (some tId) pos now).undoStack =
      (recordOperation s (.move dId (findTodoAndParentById s.todos dId none s.todos).parentId
        (moveOldPosition (findTodoAndParentById s.todos dId none s.todos).parent
          (findTodoAndParentById s.todos dId none s.todos).index)
        (some tId) pos now)).undoStack ∧
    (moveTodo s dId (some tId) pos now).redoStack = [] := by
  have hmove : moveTodo s dId (some tId) pos now =
      { recordOperation s (.move dId (findTodoAndParentById s.todos dId none s.todos).parentId
          (moveOldPosition (findTodoAndParentById s.todos dId none s.todos).parent
            (findTodoAndParentById s.todos dId none s.todos).index)
          (some tId) pos now) with
        todos := removeTodoFromTree s.todos dId } := by
    simp only [moveTodo, hd, ht]
    rw [if_neg hg1, if_neg hg2, insertTodo_notFound _ _ _ _ habsent]
  rw [hmove]
  refine ⟨rfl, ?_, ?_, rfl, rfl⟩
  · exact findTodoById_remove_self s.todos dId
  · exact habsent

/-- Witness for `moveTodo_into_descendant_drops_subtree`: an incomplete root
`d` with one incomplete child `t`; moving `d` inside `t` erases the whole
tree while recording a move operation. -/
theorem moveTodo_into_descendant_drops_subtree_witness :
    (moveTodo ⟨.cons (.mk ⟨"d", "D", false, true, none, 0, 0⟩ (.cons (todoLeaf "t" false) .nil)) .nil, [], []⟩
        "d" (some "t") .inside 3).todos = .nil ∧
    (moveTodo ⟨.cons (.mk ⟨"d", "D", false, true, none, 0, 0⟩ (.cons (todoLeaf "t" false) .nil)) .nil, [], []⟩
        "d" (some "t") .inside 3).undoStack.length = 1 := by
  have h := moveTodo_into_descendant_drops_subtree
    ⟨.cons (.mk ⟨"d", "D", false, true, none, 0, 0⟩ (.cons (todoLeaf "t" false) .nil)) .nil, [], []⟩
    "d" "t" .inside 3
    (.mk ⟨"d", "D", false, true, none, 0, 0⟩ (.cons (todoLeaf "t" false) .nil)) (todoLeaf "t" false)
    (by decide) (by decide) (by decide) (by decide) (by decide)
  refine ⟨h.1.trans (by decide), ?_⟩
  rw [h.2.2.2.1]
  decide
